import Mathlib

/-!
Verification development for the Marvin metadata extraction demo notebook
(docs/examples/metadata_extraction/MarvinMetadataExtractorDemo.ipynb).

The notebook is orchestration glue over library components.  The cells that
live in the repository (document truncation, the reporting loop) are embedded
directly from the notebook source.  Library components that the notebook only
calls (SimpleDirectoryReader, TokenTextSplitter, the metadata extractors and
pydantic validation) are modelled from the specification, as noted on each
definition.
-/

/-- Extraction Schema instance for the demo: the SportsSupplement pydantic
model from the notebook, with three mandatory text fields. -/
structure SportsSupplement where
  name : String
  description : String
  pros_cons : String
deriving DecidableEq, Repr

/-- View of an extraction result as a field mapping, one entry per schema
field of the SportsSupplement model. -/
def SportsSupplement.toFields (r : SportsSupplement) : List (String × String) :=
  [("name", r.name), ("description", r.description), ("pros_cons", r.pros_cons)]

/-- Lookup of a key in raw model output, python dict style. -/
def getRaw (k : String) : List (String × String) → Option String
  | [] => none
  | p :: rest => if p.1 = k then some p.2 else getRaw k rest

/-- Modelled from the spec: the pydantic validation step behind the marvin
ai_model decorator, which is not under src.  All three schema fields are
required; raw model output missing any of them fails with a schema error
instead of producing a partially populated record. -/
def SportsSupplement.validate (raw : List (String × String)) :
    Except String SportsSupplement :=
  match getRaw "name" raw, getRaw "description" raw, getRaw "pros_cons" raw with
  | some n, some d, some p => Except.ok { name := n, description := d, pros_cons := p }
  | _, _, _ => Except.error "validation error: missing required field"

/-- Value stored in a metadata mapping: either a plain string (document
metadata) or a structured Extraction Result. -/
inductive MetaVal where
  | str : String → MetaVal
  | result : SportsSupplement → MetaVal
deriving DecidableEq, Repr

/-- Metadata mapping with string keys, modelling a python dict. -/
abbrev Metadata := List (String × MetaVal)

/-- Dict style update: bind the key to the value, removing any prior binding
so a key is never duplicated. -/
def storeMeta (k : String) (v : MetaVal) (m : Metadata) : Metadata :=
  (k, v) :: m.filter (fun p => p.1 != k)

/-- Number of entries of the mapping bound to a key. -/
def countKey (k : String) (m : Metadata) : Nat :=
  (m.filter (fun p => p.1 == k)).length

/-- Lookup of a key in a metadata mapping, python dict style. -/
def getMeta (k : String) : Metadata → Option MetaVal
  | [] => none
  | p :: rest => if p.1 = k then some p.2 else getMeta k rest

/-- Document record: raw text plus source metadata, as produced by the
loader. -/
structure Document where
  text : String
  metadata : List (String × String)
deriving DecidableEq, Repr

/-- Chunk (node) record: a chunk of a document text together with its
mutable metadata mapping. -/
structure Node where
  text : String
  metadata : Metadata
deriving DecidableEq, Repr

/-- Modelled from the spec: SimpleDirectoryReader.load_data, which is not
under src.  Given the directory contents as (file name, file text) pairs in
filesystem order, produce one Document per readable file, in order, holding
the raw text and source metadata. -/
def SimpleDirectoryReader.loadData (files : List (String × String)) :
    List Document :=
  files.map (fun f => { text := f.2, metadata := [("file_name", f.1)] })

/-- Notebook cell truncating the first document before chunking:
documents[0].text = documents[0].text[:10000].  Indexing an empty list
raises an IndexError in python, modelled by the error branch. -/
def truncateFirstDocument (docs : List Document) : Except String (List Document) :=
  match docs with
  | [] => Except.error "IndexError: list index out of range"
  | d :: rest => Except.ok ({ d with text := d.text.take 10000 } :: rest)

/-- Split a character list at every space, keeping the pieces in order. -/
def splitCharsAux (cs : List Char) (cur : List Char) : List (List Char) :=
  match cs with
  | [] => [cur.reverse]
  | c :: rest =>
    if c = ' ' then cur.reverse :: splitCharsAux rest []
    else splitCharsAux rest (c :: cur)

/-- Tokenization used by the splitter configuration in the notebook:
separator is a single space, so the tokens of a text are its separator
separated pieces; an empty text has no tokens. -/
def tokenize (s : String) : List String :=
  if s.isEmpty then [] else (splitCharsAux s.data []).map (fun cs => String.mk cs)

/-- Modelled from the spec: the chunking loop of TokenTextSplitter, which is
not under src.  Fuel bounded recursion: emit the first chunk_size tokens;
if tokens remain beyond the chunk, step forward by chunk_size minus
chunk_overlap and continue, so consecutive chunks share exactly
chunk_overlap tokens.  The fuel and the guard on overlap < size only force
termination; with fuel at least the token count and overlap < size they
never fire. -/
def TokenTextSplitter.splitAux (size overlap : Nat) :
    Nat → List String → List (List String)
  | 0, _ => []
  | _ + 1, [] => []
  | fuel + 1, toks =>
    if toks.length ≤ size ∨ size ≤ overlap then [toks]
    else toks.take size :: TokenTextSplitter.splitAux size overlap fuel
      (toks.drop (size - overlap))

/-- Chunking at the token level: split a token list into chunks of at most
size tokens with overlap shared tokens between consecutive chunks. -/
def TokenTextSplitter.splitTokens (size overlap : Nat) (toks : List String) :
    List (List String) :=
  TokenTextSplitter.splitAux size overlap toks.length toks

/-- Chunking at the text level: tokenize, chunk, and rejoin each chunk with
the separator. -/
def TokenTextSplitter.splitText (size overlap : Nat) (s : String) : List String :=
  (TokenTextSplitter.splitTokens size overlap (tokenize s)).map
    (fun c => String.intercalate " " c)

/-- Concatenation of chunks minus the overlaps: the first chunk whole, then
each later chunk with its first overlap tokens removed. -/
def reassemble (overlap : Nat) : List (List String) → List String
  | [] => []
  | c :: rest => c ++ (rest.map (fun c2 => c2.drop overlap)).flatten

/-- Modelled from the spec: the node construction of
SimpleNodeParser.get_nodes_from_documents, which is not under src.  Each
chunk of the document text becomes a Node whose metadata starts as the
document metadata. -/
def SimpleNodeParser.getNodesFromDocument (size overlap : Nat) (d : Document) :
    List Node :=
  (TokenTextSplitter.splitText size overlap d.text).map
    (fun t => { text := t
                metadata := d.metadata.map (fun p => (p.1, MetaVal.str p.2)) })

/-- Nodes of all documents in document order. -/
def SimpleNodeParser.getNodesFromDocuments (size overlap : Nat)
    (docs : List Document) : List Node :=
  (docs.map (fun d => SimpleNodeParser.getNodesFromDocument size overlap d)).flatten

/-- Modelled from the spec: the assembling step of MarvinMetadataExtractor,
which is not under src.  The Extraction Result is written into the chunk
metadata under the fixed key marvin_metadata, overwriting any prior
value. -/
def MarvinMetadataExtractor.assemble (nd : Node) (r : SportsSupplement) : Node :=
  { nd with metadata := storeMeta "marvin_metadata" (MetaVal.result r) nd.metadata }

/-- Modelled from the spec: MetadataExtractor.process_nodes, which is not
under src.  For each node in order, one model invocation produces raw field
output, which is validated against the schema and attached to the node; a
validation failure is fatal for the run.  The model argument is the
external LLM oracle, mapping a chunk text to raw field output. -/
def MetadataExtractor.processNodes (model : String → List (String × String)) :
    List Node → Except String (List Node)
  | [] => Except.ok []
  | nd :: rest =>
    match SportsSupplement.validate (model nd.text) with
    | Except.error e => Except.error e
    | Except.ok r =>
      match MetadataExtractor.processNodes model rest with
      | Except.error e => Except.error e
      | Except.ok rest2 =>
        Except.ok (MarvinMetadataExtractor.assemble nd r :: rest2)

/-- The notebook pipeline: load the directory, truncate the first document
text, chunk with chunk_size 512 and chunk_overlap 128 as configured in the
notebook, then extract and assemble metadata for every node. -/
def pipeline (model : String → List (String × String))
    (files : List (String × String)) : Except String (List Node) :=
  match truncateFirstDocument (SimpleDirectoryReader.loadData files) with
  | Except.error e => Except.error e
  | Except.ok docs =>
    MetadataExtractor.processNodes model
      (SimpleNodeParser.getNodesFromDocuments 512 128 docs)

/-- Reporter loop body from the notebook cell, generalized over the count:
for i in range(n): pprint(nodes[i].metadata).  The first component collects
the metadata mappings printed in order; the second records the IndexError
raised when the loop indexes past the end of the list, which aborts the
loop. -/
def reporterFrom (nodes : List Node) : Nat → Nat → List Metadata × Option String
  | _, 0 => ([], none)
  | i, k + 1 =>
    match nodes[i]? with
    | none => ([], some "IndexError: list index out of range")
    | some nd =>
      let r := reporterFrom nodes (i + 1) k
      (nd.metadata :: r.1, r.2)

/-- Reporter from the notebook cell, starting at index zero. -/
def reporter (n : Nat) (nodes : List Node) : List Metadata × Option String :=
  reporterFrom nodes 0 n

/-- A metadata mapping holds an Extraction Result under the fixed key and
each of the three schema fields of that result is present. -/
def hasResultAllFields (m : Metadata) : Bool :=
  match getMeta "marvin_metadata" m with
  | some (MetaVal.result r) =>
    (getRaw "name" r.toFields).isSome && (getRaw "description" r.toFields).isSome
      && (getRaw "pros_cons" r.toFields).isSome
  | _ => false

/-- Boolean check that no chunk exceeds the configured size in tokens. -/
def allChunksWithin (size : Nat) (cs : List (List String)) : Bool :=
  cs.all (fun c => decide (c.length ≤ size))

/-- Boolean check over adjacent chunk pairs: the earlier chunk is full
sized and shares exactly overlap tokens with the next, the shared segment
being the suffix of one and the prefix of the other. -/
def adjacentOverlapOk (size overlap : Nat) : List (List String) → Bool
  | c :: c2 :: rest =>
    (c.length == size) && (c.drop (size - overlap) == c2.take overlap)
      && decide (overlap < c2.length) && adjacentOverlapOk size overlap (c2 :: rest)
  | _ => true

/-- Boolean view of success of a fallible step. -/
def exceptOk {α : Type} : Except String α → Bool
  | Except.ok _ => true
  | Except.error _ => false

/-- Concrete node used in the reporter scenario. -/
def demoNode (t : String) : Node :=
  { text := t, metadata := [("file_name", MetaVal.str "demo.csv")] }

/-- Concrete three chunk sequence for the reporter scenario. -/
def demoNodes3 : List Node := [demoNode "a", demoNode "b", demoNode "c"]

/-- Concrete raw model output carrying all three schema fields. -/
def demoModelOutput : List (String × String) :=
  [("name", "AAKG"), ("description", "supplement"), ("pros_cons", "pros")]

/-- Concrete model oracle returning the same raw output for every chunk. -/
def demoModel : String → List (String × String) := fun _ => demoModelOutput

/-- Concrete directory contents: one readable file. -/
def demoFiles : List (String × String) := [("supplements.csv", "A B")]

/-- Node produced by the pipeline on the demo directory, after assembly. -/
def demoAssembledNode : Node :=
  { text := "A B"
    metadata := [("marvin_metadata",
                  MetaVal.result { name := "AAKG", description := "supplement"
                                   pros_cons := "pros" }),
                 ("file_name", MetaVal.str "supplements.csv")] }

/-- Expected pipeline output on the demo directory. -/
def demoPipelineNodes : List Node := [demoAssembledNode]

/-- Relation between consecutive chunks: the earlier one is full sized and
the two share exactly overlap tokens, the suffix of one being the prefix of
the next. -/
def sharesOverlap (size overlap : Nat) (c c2 : List String) : Prop :=
  c.length = size ∧ c.drop (size - overlap) = c2.take overlap ∧ overlap < c2.length

theorem splitAux_head (size overlap fuel : Nat) (toks : List String)
    (hov : overlap < size) (hne : toks ≠ []) (hfuel : toks.length ≤ fuel) :
    ∃ rest, TokenTextSplitter.splitAux size overlap fuel toks =
      toks.take size :: rest := by
  cases fuel with
  | zero =>
    exact absurd (List.eq_nil_of_length_eq_zero (Nat.le_zero.mp hfuel)) hne
  | succ fuel =>
    cases toks with
    | nil => exact absurd rfl hne
    | cons t ts =>
      simp only [TokenTextSplitter.splitAux]
      split
      · next hguard =>
        refine ⟨[], ?_⟩
        rcases hguard with hle | hso
        · rw [List.take_of_length_le hle]
        · exact absurd hso (Nat.not_le.mpr hov)
      · exact ⟨_, rfl⟩

theorem splitAux_chunk_le (size overlap : Nat) (hov : overlap < size) :
    ∀ fuel toks, toks.length ≤ fuel →
      ∀ c ∈ TokenTextSplitter.splitAux size overlap fuel toks, c.length ≤ size := by
  intro fuel
  induction fuel with
  | zero =>
    intro toks hfuel c hc
    simp [TokenTextSplitter.splitAux] at hc
  | succ fuel ih =>
    intro toks hfuel c hc
    cases toks with
    | nil => simp [TokenTextSplitter.splitAux] at hc
    | cons t ts =>
      simp only [TokenTextSplitter.splitAux] at hc
      split at hc
      · next hguard =>
        rcases hguard with hle | hso
        · simp at hc
          subst hc
          exact hle
        · exact absurd hso (Nat.not_le.mpr hov)
      · next hguard =>
        rcases List.mem_cons.mp hc with hhead | htail
        · subst hhead
          simp [List.length_take]
        · refine ih _ ?_ c htail
          have h1 : (t :: ts).length ≤ fuel + 1 := hfuel
          have h2 : 1 ≤ size - overlap := by omega
          simp only [List.length_drop]
          simp only [List.length_cons] at h1 ⊢
          omega

theorem splitAux_flatten_drop (size overlap : Nat) (hov : overlap < size) :
    ∀ fuel toks, toks.length ≤ fuel →
      ((TokenTextSplitter.splitAux size overlap fuel toks).map
        (fun c => c.drop overlap)).flatten = toks.drop overlap := by
  intro fuel
  induction fuel with
  | zero =>
    intro toks hfuel
    have : toks = [] := List.eq_nil_of_length_eq_zero (Nat.le_zero.mp hfuel)
    subst this
    simp [TokenTextSplitter.splitAux]
  | succ fuel ih =>
    intro toks hfuel
    cases toks with
    | nil => simp [TokenTextSplitter.splitAux]
    | cons t ts =>
      simp only [TokenTextSplitter.splitAux]
      split
      · simp
      · next hguard =>
        have hlen : size < (t :: ts).length := by
          rcases Nat.lt_or_ge size (t :: ts).length with h | h
          · exact h
          · exact absurd (Or.inl h) hguard
        have hrec : ((t :: ts).drop (size - overlap)).length ≤ fuel := by
          simp only [List.length_drop]
          simp only [List.length_cons] at hfuel hlen ⊢
          omega
        simp only [List.map_cons, List.flatten_cons, ih _ hrec]
        rw [List.drop_drop, List.drop_take]
        have h1 : size - overlap + overlap = size := by omega
        have h2 : overlap + (size - overlap) = size := by omega
        rw [h1]
        calc List.take (size - overlap) ((t :: ts).drop overlap) ++
              (t :: ts).drop size
            = List.take (size - overlap) ((t :: ts).drop overlap) ++
              List.drop (size - overlap) ((t :: ts).drop overlap) := by
              rw [List.drop_drop, h2]
          _ = (t :: ts).drop overlap := List.take_append_drop _ _

theorem splitAux_reassemble (size overlap fuel : Nat) (toks : List String)
    (hov : overlap < size) (hfuel : toks.length ≤ fuel) :
    reassemble overlap (TokenTextSplitter.splitAux size overlap fuel toks) = toks := by
  cases fuel with
  | zero =>
    have : toks = [] := List.eq_nil_of_length_eq_zero (Nat.le_zero.mp hfuel)
    subst this
    simp [TokenTextSplitter.splitAux, reassemble]
  | succ fuel =>
    cases toks with
    | nil => simp [TokenTextSplitter.splitAux, reassemble]
    | cons t ts =>
      simp only [TokenTextSplitter.splitAux]
      split
      · simp [reassemble]
      · next hguard =>
        have hlen : size < (t :: ts).length := by
          rcases Nat.lt_or_ge size (t :: ts).length with h | h
          · exact h
          · exact absurd (Or.inl h) hguard
        have hrec : ((t :: ts).drop (size - overlap)).length ≤ fuel := by
          simp only [List.length_drop]
          simp only [List.length_cons] at hfuel hlen ⊢
          omega
        simp only [reassemble]
        rw [splitAux_flatten_drop size overlap hov fuel _ hrec]
        rw [List.drop_drop]
        have h1 : size - overlap + overlap = size := by omega
        rw [h1, List.take_append_drop]

theorem splitAux_chain (size overlap : Nat) (hov : overlap < size) :
    ∀ fuel toks, toks.length ≤ fuel →
      List.Chain' (sharesOverlap size overlap)
        (TokenTextSplitter.splitAux size overlap fuel toks) := by
  intro fuel
  induction fuel with
  | zero =>
    intro toks hfuel
    have : toks = [] := List.eq_nil_of_length_eq_zero (Nat.le_zero.mp hfuel)
    subst this
    simp [TokenTextSplitter.splitAux]
  | succ fuel ih =>
    intro toks hfuel
    cases toks with
    | nil => simp [TokenTextSplitter.splitAux]
    | cons t ts =>
      simp only [TokenTextSplitter.splitAux]
      split
      · exact List.chain'_singleton _
      · next hguard =>
        have hlen : size < (t :: ts).length := by
          rcases Nat.lt_or_ge size (t :: ts).length with h | h
          · exact h
          · exact absurd (Or.inl h) hguard
        have hrec : ((t :: ts).drop (size - overlap)).length ≤ fuel := by
          simp only [List.length_drop]
          simp only [List.length_cons] at hfuel hlen ⊢
          omega
        have hdne : (t :: ts).drop (size - overlap) ≠ [] := by
          intro hnil
          have := congrArg List.length hnil
          simp only [List.length_drop, List.length_nil] at this
          simp only [List.length_cons] at hlen
          omega
        obtain ⟨rest, hrest⟩ :=
          splitAux_head size overlap fuel _ hov hdne hrec
        rw [hrest]
        have hchain := ih _ hrec
        rw [hrest] at hchain
        refine List.chain'_cons.mpr ⟨?_, hchain⟩
        refine ⟨?_, ?_, ?_⟩
        · simp only [List.length_take]
          omega
        · rw [List.drop_take, List.take_take]
          have h1 : size - (size - overlap) = overlap := by omega
          have h2 : min overlap size = overlap := by omega
          rw [h1, h2]
        · simp only [List.length_take, List.length_drop]
          simp only [List.length_cons] at hlen ⊢
          omega

theorem adjacentOverlapOk_of_chain (size overlap : Nat) :
    ∀ cs, List.Chain' (sharesOverlap size overlap) cs →
      adjacentOverlapOk size overlap cs = true := by
  intro cs
  induction cs with
  | nil => intro _; rfl
  | cons c rest ih =>
    intro h
    cases rest with
    | nil => rfl
    | cons c2 rest2 =>
      obtain ⟨hr, hchain⟩ := List.chain'_cons.mp h
      obtain ⟨h1, h2, h3⟩ := hr
      simp only [adjacentOverlapOk, Bool.and_eq_true, beq_iff_eq,
        decide_eq_true_eq]
      exact ⟨⟨⟨h1, h2⟩, h3⟩, ih hchain⟩

theorem countKey_storeMeta (k : String) (v : MetaVal) (m : Metadata) :
    countKey k (storeMeta k v m) = 1 := by
  simp only [countKey, storeMeta, List.filter_cons, beq_self_eq_true,
    if_pos, List.length_cons, List.filter_filter]
  have : ∀ p : String × MetaVal, ((p.1 == k) && (p.1 != k)) = false := by
    intro p
    by_cases h : p.1 = k <;> simp [h]
  simp [this]

theorem getMeta_storeMeta (k : String) (v : MetaVal) (m : Metadata) :
    getMeta k (storeMeta k v m) = some v := by
  simp [getMeta, storeMeta]

theorem getRaw_eq_none (k : String) (raw : List (String × String))
    (h : ∀ p ∈ raw, p.1 ≠ k) : getRaw k raw = none := by
  induction raw with
  | nil => rfl
  | cons p rest ih =>
    simp only [getRaw]
    rw [if_neg (h p (List.mem_cons_self p rest))]
    exact ih (fun q hq => h q (List.mem_cons_of_mem p hq))

theorem hasResultAllFields_storeMeta (r : SportsSupplement) (m : Metadata) :
    hasResultAllFields (storeMeta "marvin_metadata" (MetaVal.result r) m) = true := by
  unfold hasResultAllFields
  rw [getMeta_storeMeta]
  simp [SportsSupplement.toFields, getRaw]

theorem processNodes_mem (model : String → List (String × String)) :
    ∀ ns ns2, MetadataExtractor.processNodes model ns = Except.ok ns2 →
      ∀ nd ∈ ns2, ∃ src r,
        SportsSupplement.validate (model src.text) = Except.ok r ∧
        nd = MarvinMetadataExtractor.assemble src r := by
  intro ns
  induction ns with
  | nil =>
    intro ns2 h nd hnd
    simp only [MetadataExtractor.processNodes] at h
    cases h
    simp at hnd
  | cons n0 rest ih =>
    intro ns2 h nd hnd
    simp only [MetadataExtractor.processNodes] at h
    cases hv : SportsSupplement.validate (model n0.text) with
    | error e => rw [hv] at h; cases h
    | ok r =>
      rw [hv] at h
      cases hp : MetadataExtractor.processNodes model rest with
      | error e => rw [hp] at h; cases h
      | ok rest2 =>
        rw [hp] at h
        cases h
        rcases List.mem_cons.mp hnd with h1 | h2
        · exact ⟨n0, r, hv, h1⟩
        · exact ih rest2 hp nd h2

theorem reporterFrom_ok (nodes : List Node) :
    ∀ k i, i + k ≤ nodes.length →
      (reporterFrom nodes i k).2 = none ∧
      (reporterFrom nodes i k).1.length = k := by
  intro k
  induction k with
  | zero =>
    intro i _
    refine ⟨?_, ?_⟩ <;> rfl
  | succ k ih =>
    intro i h
    have hi : i < nodes.length := by omega
    have hrec := ih (i + 1) (by omega)
    simp only [reporterFrom, List.getElem?_eq_getElem hi]
    exact ⟨hrec.1, by simp [hrec.2]⟩

theorem reporterFrom_overflow (nodes : List Node) :
    ∀ k i, i ≤ nodes.length → nodes.length < i + k →
      (reporterFrom nodes i k).2 = some "IndexError: list index out of range" ∧
      (reporterFrom nodes i k).1.length = nodes.length - i := by
  intro k
  induction k with
  | zero => intro i h1 h2; omega
  | succ k ih =>
    intro i h1 h2
    rcases Nat.eq_or_lt_of_le h1 with heq | hlt
    · have hnone : nodes[i]? = none := List.getElem?_eq_none (by omega)
      simp only [reporterFrom, hnone]
      exact ⟨by simp, by simp [heq]⟩
    · have hrec := ih (i + 1) (by omega) (by omega)
      simp only [reporterFrom, List.getElem?_eq_getElem hlt]
      refine ⟨hrec.1, ?_⟩
      simp only [List.length_cons, hrec.2]
      omega

theorem splitAux_small (size overlap fuel : Nat) (toks : List String)
    (hne : toks ≠ []) (hle : toks.length ≤ size) (hfuel : toks.length ≤ fuel) :
    TokenTextSplitter.splitAux size overlap fuel toks = [toks] := by
  cases fuel with
  | zero =>
    exact absurd (List.eq_nil_of_length_eq_zero (Nat.le_zero.mp hfuel)) hne
  | succ fuel =>
    cases toks with
    | nil => exact absurd rfl hne
    | cons t ts =>
      simp only [TokenTextSplitter.splitAux]
      rw [if_pos (Or.inl hle)]

/-- C1: every Chunk produced by a successful run of the full pipeline has,
after processing, exactly one Extraction Result in its metadata mapping,
stored under the fixed key marvin_metadata, and that Extraction Result has
all three schema fields name, description and pros_cons present. -/
theorem C1_pipeline_metadata_invariant (model : String → List (String × String))
    (files : List (String × String)) (nodes : List Node) (nd : Node)
    (hrun : pipeline model files = Except.ok nodes) (hnd : nd ∈ nodes) :
    countKey "marvin_metadata" nd.metadata = 1 ∧
      hasResultAllFields nd.metadata = true := by
  unfold pipeline at hrun
  cases htr : truncateFirstDocument (SimpleDirectoryReader.loadData files) with
  | error e => rw [htr] at hrun; cases hrun
  | ok docs =>
    rw [htr] at hrun
    obtain ⟨src, r, _, hnd2⟩ := processNodes_mem model _ nodes hrun nd hnd
    subst hnd2
    exact ⟨countKey_storeMeta _ _ _, hasResultAllFields_storeMeta r src.metadata⟩

/-- Witness for C1 at a concrete successful pipeline run. -/
theorem C1_witness :
    countKey "marvin_metadata" demoAssembledNode.metadata = 1 ∧
      hasResultAllFields demoAssembledNode.metadata = true := by
  have htake : ("A B" : String).take 10000 = "A B" := by
    rw [String.take_eq]
    rfl
  have hrun : pipeline demoModel demoFiles = Except.ok demoPipelineNodes := by
    unfold pipeline
    rw [show truncateFirstDocument (SimpleDirectoryReader.loadData demoFiles) =
      Except.ok [{ text := ("A B" : String).take 10000,
                   metadata := [("file_name", "supplements.csv")] }] from rfl]
    rw [htake]
    rfl
  exact C1_pipeline_metadata_invariant demoModel demoFiles demoPipelineNodes
    demoAssembledNode hrun (by decide)

/-- C2: for every source text and every configuration with chunk_overlap
less than chunk_size, the chunks reassemble to the source token sequence
when the overlaps are removed, no chunk exceeds chunk_size tokens, and
consecutive chunks share exactly chunk_overlap tokens. -/
theorem C2_chunker_properties (size overlap : Nat) (s : String)
    (hov : overlap < size) :
    reassemble overlap
        (TokenTextSplitter.splitTokens size overlap (tokenize s)) = tokenize s ∧
      allChunksWithin size
        (TokenTextSplitter.splitTokens size overlap (tokenize s)) = true ∧
      adjacentOverlapOk size overlap
        (TokenTextSplitter.splitTokens size overlap (tokenize s)) = true := by
  refine ⟨?_, ?_, ?_⟩
  · exact splitAux_reassemble size overlap _ _ hov le_rfl
  · rw [allChunksWithin, List.all_eq_true]
    intro c hc
    exact decide_eq_true (splitAux_chunk_le size overlap hov _ _ le_rfl c hc)
  · exact adjacentOverlapOk_of_chain size overlap _
      (splitAux_chain size overlap hov _ _ le_rfl)

/-- Witness for C2 at a concrete text and configuration. -/
theorem C2_witness :
    reassemble 1 (TokenTextSplitter.splitTokens 3 1 (tokenize "a b c d e")) =
        tokenize "a b c d e" ∧
      allChunksWithin 3
        (TokenTextSplitter.splitTokens 3 1 (tokenize "a b c d e")) = true ∧
      adjacentOverlapOk 3 1
        (TokenTextSplitter.splitTokens 3 1 (tokenize "a b c d e")) = true :=
  C2_chunker_properties 3 1 "a b c d e" (by decide)

/-- C3 as stated is false on the notebook code: the reporting loop indexes
nodes[i] for i in range(5), so on a 3 chunk sequence it prints the 3
metadata mappings and then raises an IndexError instead of finishing
cleanly. -/
theorem C3_counterexample :
    (reporter 5 demoNodes3).1.length = 3 ∧
      (reporter 5 demoNodes3).2 = some "IndexError: list index out of range" := by
  refine ⟨?_, ?_⟩ <;> rfl

/-- C3 amended: with a display count larger than the sequence length the
reporter prints exactly one metadata mapping per chunk and then raises an
IndexError; it does not complete without error. -/
theorem C3_reporter_overflow (n : Nat) (nodes : List Node)
    (h : nodes.length < n) :
    (reporter n nodes).1.length = nodes.length ∧
      (reporter n nodes).2 = some "IndexError: list index out of range" := by
  have hfacts := reporterFrom_overflow nodes n 0 (Nat.zero_le _) (by omega)
  exact ⟨by simpa [reporter] using hfacts.2, by simpa [reporter] using hfacts.1⟩

/-- Witness for the amended C3 on the 3 chunk sequence with display count
5. -/
theorem C3_witness :
    (reporter 5 demoNodes3).1.length = demoNodes3.length ∧
      (reporter 5 demoNodes3).2 = some "IndexError: list index out of range" :=
  C3_reporter_overflow 5 demoNodes3 (by decide)

/-- C4: raw model output that populates only the fields name and
description fails schema validation, since pros_cons is required; no
Extraction Result is produced with pros_cons silently omitted. -/
theorem C4_validation_rejects_missing_field (raw : List (String × String))
    (h : ∀ p ∈ raw, p.1 = "name" ∨ p.1 = "description") :
    exceptOk (SportsSupplement.validate raw) = false := by
  have hnone : getRaw "pros_cons" raw = none := by
    refine getRaw_eq_none _ _ ?_
    intro p hp
    rcases h p hp with h1 | h1 <;> simp [h1]
  unfold SportsSupplement.validate
  cases h1 : getRaw "name" raw <;> cases h2 : getRaw "description" raw <;>
    simp [hnone, exceptOk]

/-- Witness for C4 at raw output holding only name and description. -/
theorem C4_witness :
    exceptOk (SportsSupplement.validate
      [("name", "AAKG"), ("description", "supplement")]) = false :=
  C4_validation_rejects_missing_field
    [("name", "AAKG"), ("description", "supplement")] (by decide)

/-- C5 as stated is false on the degenerate empty Document: empty text has
zero tokens, which is within chunk_size, yet the chunker yields zero
chunks rather than exactly one. -/
theorem C5_counterexample :
    (TokenTextSplitter.splitText 512 128 "").length = 0 ∧
      (tokenize "").length ≤ 512 := by
  refine ⟨rfl, by decide⟩

/-- C5 amended: every Document whose text has at least one token and at
most chunk_size tokens yields exactly one Chunk, including the boundary
case of exactly chunk_size tokens. -/
theorem C5_single_chunk (size overlap : Nat) (s : String)
    (hne : tokenize s ≠ []) (hle : (tokenize s).length ≤ size) :
    (TokenTextSplitter.splitText size overlap s).length = 1 := by
  unfold TokenTextSplitter.splitText TokenTextSplitter.splitTokens
  rw [splitAux_small size overlap _ _ hne hle le_rfl]
  rfl

/-- Witness for the amended C5 at a one token document and at the exact
boundary. -/
theorem C5_witness :
    (TokenTextSplitter.splitText 2 0 "A").length = 1 :=
  C5_single_chunk 2 0 "A" (by decide) (by decide)

/-- C6: a directory holding only empty files loads to one Document per
file, each Document has empty text, and the chunker yields zero Chunks for
each such Document. -/
theorem C6_empty_files (size overlap : Nat) (files : List (String × String))
    (h : ∀ f ∈ files, f.2 = "") :
    (SimpleDirectoryReader.loadData files).length = files.length ∧
      (SimpleDirectoryReader.loadData files).all
        (fun d => (d.text == "") &&
          (TokenTextSplitter.splitText size overlap d.text).isEmpty) = true := by
  refine ⟨by simp [SimpleDirectoryReader.loadData], ?_⟩
  rw [List.all_eq_true]
  intro d hd
  obtain ⟨f, hf, hdf⟩ := List.mem_map.mp hd
  have htext : d.text = "" := by rw [← hdf]; exact h f hf
  rw [htext]
  have hsplit : TokenTextSplitter.splitText size overlap "" = [] := rfl
  rw [hsplit]
  decide

/-- Witness for C6 at a concrete directory of two empty files. -/
theorem C6_witness :
    (SimpleDirectoryReader.loadData [("a.txt", ""), ("b.txt", "")]).length =
        ([("a.txt", ""), ("b.txt", "")] : List (String × String)).length ∧
      (SimpleDirectoryReader.loadData [("a.txt", ""), ("b.txt", "")]).all
        (fun d => (d.text == "") &&
          (TokenTextSplitter.splitText 512 128 d.text).isEmpty) = true :=
  C6_empty_files 512 128 [("a.txt", ""), ("b.txt", "")] (by decide)

/-- C7: on the text A B C D with chunk_size 2 and chunk_overlap 0 the
chunker produces exactly the two chunks A B and C D, in that order. -/
theorem C7_four_token_scenario :
    TokenTextSplitter.splitText 2 0 "A B C D" = ["A B", "C D"] := rfl

/-- C8: running the Assembler on a chunk with r1 and then with r2 leaves
the fixed key bound to r2 only: the second write overwrites the first and
never creates a duplicate entry for the key. -/
theorem C8_assembler_overwrites (nd : Node) (r1 r2 : SportsSupplement) :
    countKey "marvin_metadata"
        (MarvinMetadataExtractor.assemble
          (MarvinMetadataExtractor.assemble nd r1) r2).metadata = 1 ∧
      getMeta "marvin_metadata"
        (MarvinMetadataExtractor.assemble
          (MarvinMetadataExtractor.assemble nd r1) r2).metadata =
        some (MetaVal.result r2) :=
  ⟨countKey_storeMeta _ _ _, getMeta_storeMeta _ _ _⟩

/-- C9: the truncation step replaces the text of the first loaded Document
with its first 10000 character prefix, keeps its metadata, and leaves every
other Document in the sequence unchanged. -/
theorem C9_truncation_frame (d : Document) (rest : List Document) :
    truncateFirstDocument (d :: rest) =
      Except.ok ({ text := d.text.take 10000, metadata := d.metadata } :: rest) := rfl

/-- C10: when the Loader yields an empty document sequence, the truncation
step that indexes the first document raises an IndexError and the pipeline
does not proceed. -/
theorem C10_empty_load_raises (model : String → List (String × String))
    (files : List (String × String))
    (h : SimpleDirectoryReader.loadData files = []) :
    pipeline model files = Except.error "IndexError: list index out of range" := by
  unfold pipeline
  rw [h]
  rfl

/-- Witness for C10 at the empty directory. -/
theorem C10_witness :
    pipeline demoModel [] = Except.error "IndexError: list index out of range" :=
  C10_empty_load_raises demoModel [] rfl
